import Mathlib

/-!
Shallow embedding of the real-time market-data layer of the repository
(src/src/websocket/*: `data_manager.py`, `price_feed.py`, `orderbook_feed.py`,
`user_state_feed.py`) and proofs of its specification claims.

Conventions:
* Python floats are modelled as rationals (ℚ); wall-clock instants are
  rationals in seconds (the order-book throttle converts to milliseconds,
  exactly as `time.time() * 1000` does in the source).
* Python dicts keyed by instrument symbol are modelled as association lists
  `List (String × α)` with `dictLookup` / `dictInsert` / `dictErase`.
* `float(...)` parsing that may raise is modelled with an explicit raw-level
  datatype whose `bad` constructor stands for an unparseable entry.
-/

namespace AIAgents

/-- Association-list lookup modelling Python `dict.get`. -/
def dictLookup {α : Type} (k : String) : List (String × α) → Option α
  | [] => none
  | (k', v) :: rest => if k' = k then some v else dictLookup k rest

/-- Association-list erase modelling Python `del d[k]`. -/
def dictErase {α : Type} (k : String) : List (String × α) → List (String × α)
  | [] => []
  | p :: rest => if p.1 = k then dictErase k rest else p :: dictErase k rest

/-- Association-list insert/replace modelling Python `d[k] = v`. -/
def dictInsert {α : Type} (k : String) (v : α) (d : List (String × α)) : List (String × α) :=
  dictErase k d ++ [(k, v)]

/-! ### Order book data model (`orderbook_feed.py`, class `OrderLevel` / `OrderBook`) -/

/-- `OrderLevel`: a single price level in the order book. -/
structure OrderLevel where
  price : ℚ
  size : ℚ
  count : ℤ
deriving DecidableEq, Repr

/-- `OrderBook`: complete order book for a single coin. -/
structure OrderBook where
  coin : String
  bids : List OrderLevel
  asks : List OrderLevel
  last_update : ℚ
  sequence : ℕ
deriving DecidableEq, Repr

/-- `OrderBook.best_bid`: `self.bids[0].price if self.bids else None`. -/
def OrderBook.best_bid (b : OrderBook) : Option ℚ :=
  b.bids.head?.map (fun lv => lv.price)

/-- `OrderBook.best_ask`: `self.asks[0].price if self.asks else None`. -/
def OrderBook.best_ask (b : OrderBook) : Option ℚ :=
  b.asks.head?.map (fun lv => lv.price)

/-- `OrderBook.bid_depth`: sum of all bid sizes. -/
def OrderBook.bid_depth (b : OrderBook) : ℚ :=
  (b.bids.map (fun lv => lv.size)).sum

/-- `OrderBook.ask_depth`: sum of all ask sizes. -/
def OrderBook.ask_depth (b : OrderBook) : ℚ :=
  (b.asks.map (fun lv => lv.size)).sum

/-- `OrderBook.imbalance`: `(bid_depth - ask_depth) / total`, `0` when `total == 0`. -/
def OrderBook.imbalance (b : OrderBook) : ℚ :=
  let total := b.bid_depth + b.ask_depth
  if total = 0 then 0 else (b.bid_depth - b.ask_depth) / total

/-! ### Order book feed (`orderbook_feed.py`, class `OrderBookFeed`) -/

/-- A raw order-book wire level: `ok` carries the values of `px`/`sz`/`n`,
`bad` stands for an entry whose `float(...)`/`int(...)` conversion raises. -/
inductive RawLevel where
  | ok (px sz : ℚ) (n : ℤ)
  | bad
deriving DecidableEq, Repr

/-- Parse one wire level; `bad` is skipped by the `try/except` in the source. -/
def parseLevel : RawLevel → Option OrderLevel
  | .ok px sz n => some { price := px, size := sz, count := n }
  | .bad => none

/-- Parse up to `depth` levels, skipping unparseable ones
(`for level in raw[:depth]: try ... except ...: pass`). -/
def parseLevels (depth : ℕ) (raw : List RawLevel) : List OrderLevel :=
  (raw.take depth).filterMap parseLevel

/-- An `l2Book` message payload: coin plus the `[bids, asks]` ladder pair. -/
structure L2Msg where
  coin : String
  levels : List (List RawLevel)
deriving DecidableEq, Repr

/-- Mutable state of `OrderBookFeed`: configuration, per-coin books and the
per-coin last listener-dispatch time in milliseconds (`defaultdict(float)`). -/
structure OrderBookFeedState where
  depth_levels : ℕ
  update_throttle_ms : ℚ
  orderbooks : List (String × OrderBook)
  last_emit_time : List (String × ℚ)
deriving DecidableEq, Repr

/-- `OrderBook(coin=coin)` freshly constructed at wall-clock time `t`. -/
def emptyBookAt (coin : String) (t : ℚ) : OrderBook :=
  { coin := coin, bids := [], asks := [], last_update := t, sequence := 0 }

/-- The book written by `_process_l2_book` for a valid message: ladders are
replaced wholesale by the parsed levels, the timestamp is refreshed and the
sequence counter of the existing (or freshly created) book is bumped by one. -/
def newBookFor (st : OrderBookFeedState) (now : ℚ) (msg : L2Msg) : OrderBook :=
  let old := (dictLookup msg.coin st.orderbooks).getD (emptyBookAt msg.coin now)
  { coin := old.coin,
    bids := parseLevels st.depth_levels (msg.levels.getD 0 []),
    asks := parseLevels st.depth_levels (msg.levels.getD 1 []),
    last_update := now,
    sequence := old.sequence + 1 }

/-- `OrderBookFeed._maybe_emit_update`: dispatch to listeners only if at least
`update_throttle_ms` elapsed since the last dispatch for this coin
(`now` is in seconds; the source compares `time.time() * 1000`). Returns the
new state and whether listeners were notified. -/
def maybeEmit (st : OrderBookFeedState) (now : ℚ) (coin : String) :
    OrderBookFeedState × Bool :=
  if st.update_throttle_ms ≤ 1000 * now - (dictLookup coin st.last_emit_time).getD 0 then
    ({ st with last_emit_time := dictInsert coin (1000 * now) st.last_emit_time }, true)
  else (st, false)

/-- `OrderBookFeed._process_l2_book` followed by `_maybe_emit_update`. -/
def processL2 (st : OrderBookFeedState) (now : ℚ) (msg : L2Msg) :
    OrderBookFeedState × Bool :=
  if msg.coin = "" ∨ msg.levels.length < 2 then (st, false)
  else
    maybeEmit
      { st with orderbooks := dictInsert msg.coin (newBookFor st now msg) st.orderbooks }
      now msg.coin

/-- `OrderBookFeed.get_orderbook`: the stored book, or `None` if untracked. -/
def get_orderbook (st : OrderBookFeedState) (coin : String) : Option OrderBook :=
  dictLookup coin st.orderbooks

/-- `OrderBookFeed.is_orderbook_stale`: `True` if untracked or the age of the
last update strictly exceeds `max_age_seconds`. -/
def is_orderbook_stale (st : OrderBookFeedState) (coin : String) (now maxAge : ℚ) : Bool :=
  match dictLookup coin st.orderbooks with
  | none => true
  | some bk => decide (now - bk.last_update > maxAge)

/-- The per-coin initialization loop of `OrderBookFeed.start`: each subscribed
coin gets `OrderBook(coin=coin)` stored immediately. -/
def obStart (coins : List String) (t : ℚ) (st : OrderBookFeedState) : OrderBookFeedState :=
  { st with
    orderbooks := coins.foldl (fun d c => dictInsert c (emptyBookAt c t) d) st.orderbooks }

/-- Run a sequence of timed `l2Book` messages through the feed, collecting the
`(time, coin)` of every dispatched listener notification, in order. -/
def runTrace (st : OrderBookFeedState) :
    List (ℚ × L2Msg) → OrderBookFeedState × List (ℚ × String)
  | [] => (st, [])
  | (t, msg) :: rest =>
    let p := processL2 st t msg
    let q := runTrace p.1 rest
    (q.1, (if p.2 then [(t, msg.coin)] else []) ++ q.2)

/-- Dispatch times for one coin, in dispatch order. -/
def emitsFor (coin : String) (log : List (ℚ × String)) : List ℚ :=
  (log.filter (fun e => e.2 = coin)).map (fun e => e.1)

/-- Dispatch times `ts` (seconds) are admissible after a stored last-dispatch
value `L` (milliseconds): each dispatch is at least `throttle` ms after the
stored value, which then becomes that dispatch time in ms. -/
def emitGapsOk (throttle : ℚ) : ℚ → List ℚ → Prop
  | _, [] => True
  | L, t :: rest => throttle ≤ 1000 * t - L ∧ emitGapsOk throttle (1000 * t) rest

/-! ### Price feed (`price_feed.py`, class `TickerData` / `PriceFeed`) -/

/-- `TickerData` dataclass. -/
structure TickerData where
  coin : String
  price : ℚ
  bid : ℚ
  ask : ℚ
  volume24h : ℚ
  change24h : ℚ
  last_update : ℚ
deriving DecidableEq, Repr

/-- Mutable state of `PriceFeed`: the per-coin ticker dict. -/
structure PriceFeedState where
  prices : List (String × TickerData)
deriving DecidableEq, Repr

/-- `PriceFeed.get_price`: the stored mid price, or `None` if untracked. -/
def get_price (st : PriceFeedState) (coin : String) : Option ℚ :=
  (dictLookup coin st.prices).map (fun tk => tk.price)

/-- `PriceFeed.get_ticker`. -/
def get_ticker (st : PriceFeedState) (coin : String) : Option TickerData :=
  dictLookup coin st.prices

/-- `PriceFeed.is_price_stale`: `True` if untracked or the age of the last
update strictly exceeds `max_age_seconds`. -/
def is_price_stale (st : PriceFeedState) (coin : String) (now maxAge : ℚ) : Bool :=
  match dictLookup coin st.prices with
  | none => true
  | some tk => decide (now - tk.last_update > maxAge)

/-! ### User state feed (`user_state_feed.py`) -/

/-- `Position` dataclass. -/
structure Position where
  coin : String
  size : ℚ
  entry_price : ℚ
  unrealized_pnl : ℚ
  return_on_equity : ℚ
  leverage : ℚ
  liquidation_price : Option ℚ
  margin_used : ℚ
  last_update : ℚ
deriving DecidableEq, Repr

/-- `Position.is_long`: `size > 0`. -/
def Position.is_long (p : Position) : Bool := decide (0 < p.size)

/-- `Position.side`. -/
def Position.side (p : Position) : String := if p.is_long then "LONG" else "SHORT"

/-- `Position.pnl_percent`: `return_on_equity * 100`. -/
def Position.pnl_percent (p : Position) : ℚ := p.return_on_equity * 100

/-- The dictionary produced by `Position.to_dict` (one field per key). -/
structure PositionDict where
  coin : String
  size : ℚ
  entry_price : ℚ
  unrealized_pnl : ℚ
  pnl_percent : ℚ
  leverage : ℚ
  liquidation_price : Option ℚ
  margin_used : ℚ
  is_long : Bool
  side : String
  last_update : ℚ
deriving DecidableEq, Repr

/-- `Position.to_dict`. -/
def Position.to_dict (p : Position) : PositionDict :=
  { coin := p.coin, size := p.size, entry_price := p.entry_price,
    unrealized_pnl := p.unrealized_pnl, pnl_percent := p.pnl_percent,
    leverage := p.leverage, liquidation_price := p.liquidation_price,
    margin_used := p.margin_used, is_long := p.is_long, side := p.side,
    last_update := p.last_update }

/-- `Fill` dataclass (`time` is the local receive time). -/
structure Fill where
  coin : String
  side : String
  size : ℚ
  price : ℚ
  time : ℚ
  fee : ℚ
  order_id : String
  closed_pnl : ℚ
deriving DecidableEq, Repr

/-- `Fill.is_buy`: `side == "B"`. -/
def Fill.is_buy (f : Fill) : Bool := decide (f.side = "B")

/-- The dictionary produced by `Fill.to_dict` (one field per key). -/
structure FillDict where
  coin : String
  side : String
  size : ℚ
  price : ℚ
  time : ℚ
  fee : ℚ
  order_id : String
  closed_pnl : ℚ
deriving DecidableEq, Repr

/-- `Fill.to_dict`. -/
def Fill.to_dict (f : Fill) : FillDict :=
  { coin := f.coin, side := if f.is_buy then "BUY" else "SELL", size := f.size,
    price := f.price, time := f.time, fee := f.fee, order_id := f.order_id,
    closed_pnl := f.closed_pnl }

/-- The buffer update in `_process_fills` for one fill:
`self._recent_fills.insert(0, fill)` then trim to `self._max_fills`. -/
def processFill (maxFills : ℕ) (buf : List Fill) (f : Fill) : List Fill :=
  let extended := f :: buf
  if maxFills < extended.length then extended.take maxFills else extended

/-- `_process_fills` over a whole `userFills` message, in message order. -/
def processFills (maxFills : ℕ) : List Fill → List Fill → List Fill
  | buf, [] => buf
  | buf, f :: rest => processFills maxFills (processFill maxFills buf f) rest

/-- `UserStateFeed.get_recent_fills(limit)`: the first `limit` buffer entries
as dictionaries. -/
def get_recent_fills (buf : List Fill) (limit : ℕ) : List FillDict :=
  (buf.take limit).map Fill.to_dict

/-- One entry of a `userEvents` position list, with the wire fields already
converted (`position.szi`, `entryPx`, `unrealizedPnl`, `returnOnEquity`,
`leverage.value`, falsy-or-absent `liquidationPx` as `none`, `marginUsed`). -/
structure RawPosEntry where
  coin : String
  szi : ℚ
  entryPx : ℚ
  unrealizedPnl : ℚ
  returnOnEquity : ℚ
  leverageValue : ℚ
  liquidationPx : Option ℚ
  marginUsed : ℚ
deriving DecidableEq, Repr

/-- The `Position` built by `_update_positions` for a nonzero-size entry. -/
def posFromRaw (now : ℚ) (e : RawPosEntry) : Position :=
  { coin := e.coin, size := e.szi, entry_price := e.entryPx,
    unrealized_pnl := e.unrealizedPnl, return_on_equity := e.returnOnEquity,
    leverage := e.leverageValue, liquidation_price := e.liquidationPx,
    margin_used := e.marginUsed, last_update := now }

/-- Mutable state of `UserStateFeed`: live positions and the registered
position listeners (identified by index in registration order). -/
structure UserStateFeedState where
  positions : List (String × Position)
  listeners : List ℕ
deriving DecidableEq, Repr

/-- The payload handed to position listeners by `_emit_position_update`:
either the full position dict, or the minimal
`{"coin": coin, "size": 0, "closed": True}` marker for a closed position. -/
inductive PositionEvent where
  | update (d : PositionDict)
  | closedMarker (coin : String) (size : ℚ) (closed : Bool)
deriving DecidableEq, Repr

/-- `_emit_position_update` payload for one coin against the current state. -/
def emitEventFor (positions : List (String × Position)) (coin : String) : PositionEvent :=
  match dictLookup coin positions with
  | some p => .update p.to_dict
  | none => .closedMarker coin 0 true

/-- The locked loop of `_update_positions`: nonzero size creates/replaces the
coin's position, zero size deletes it if present; touched coins are collected
in order. -/
def updatePositionsCore (now : ℚ) :
    List (String × Position) → List String → List RawPosEntry →
      List (String × Position) × List String
  | pos, upd, [] => (pos, upd)
  | pos, upd, e :: rest =>
    if e.szi ≠ 0 then
      updatePositionsCore now (dictInsert e.coin (posFromRaw now e) pos) (upd ++ [e.coin]) rest
    else if (dictLookup e.coin pos).isSome then
      updatePositionsCore now (dictErase e.coin pos) (upd ++ [e.coin]) rest
    else
      updatePositionsCore now pos upd rest

/-- The emission loop after `_update_positions`: every touched coin's payload
is delivered to every registered listener. -/
def emitAll (listeners : List ℕ) (positions : List (String × Position)) :
    List String → List (ℕ × PositionEvent)
  | [] => []
  | c :: cs =>
    listeners.map (fun l => (l, emitEventFor positions c)) ++ emitAll listeners positions cs

/-- `_update_positions`: the state update plus the listener deliveries, the
latter evaluated against the post-update state (the emission loop runs after
the lock is released). -/
def updatePositions (now : ℚ) (st : UserStateFeedState) (entries : List RawPosEntry) :
    UserStateFeedState × List (ℕ × PositionEvent) :=
  let r := updatePositionsCore now st.positions [] entries
  ({ st with positions := r.1 }, emitAll st.listeners r.1 r.2)

/-- `UserStateFeed.get_all_positions`: a copy of the live position dict. -/
def get_all_positions (st : UserStateFeedState) : List (String × Position) :=
  st.positions

/-- `UserStateFeed.get_position`. -/
def feed_get_position (st : UserStateFeedState) (coin : String) : Option Position :=
  dictLookup coin st.positions

/-- `UserStateFeed.has_position`: tracked with nonzero size. -/
def has_position (st : UserStateFeedState) (coin : String) : Bool :=
  match dictLookup coin st.positions with
  | some p => decide (p.size ≠ 0)
  | none => false

/-- `UserStateFeed.is_position_stale`. -/
def is_position_stale (st : UserStateFeedState) (coin : String) (now maxAge : ℚ) : Bool :=
  match dictLookup coin st.positions with
  | none => true
  | some p => decide (now - p.last_update > maxAge)

/-! ### Data manager (`data_manager.py`, class `WebSocketDataManager`) -/

/-- `PRICE_STALE_THRESHOLD_SEC` (5 s). -/
def PRICE_STALE_THRESHOLD_SEC : ℚ := 5

/-- `ORDERBOOK_STALE_THRESHOLD_SEC` (2 s). -/
def ORDERBOOK_STALE_THRESHOLD_SEC : ℚ := 2

/-- Mutable state of `WebSocketDataManager`: the two config booleans and the
feeds (each `None` until `start` creates them). -/
structure ManagerState where
  use_websocket : Bool
  fallback_to_api : Bool
  is_initialized : Bool
  price_feed : Option PriceFeedState
  orderbook_feed : Option OrderBookFeedState
  user_state_feed : Option UserStateFeedState
deriving DecidableEq, Repr

/-- Result of `WebSocketDataManager.get_ask_bid`: the `(ask, bid, None)`
tuple, a delegation to the synchronous API fallback, or the raised
exception. -/
inductive AskBidResult where
  | pair (ask bid : ℚ)
  | fallbackCall
  | unavailable
deriving DecidableEq, Repr

/-- The price-feed branch of `get_ask_bid`: serves the ticker's ask/bid when
the manager is initialized, the ticker exists with positive ask and bid, and
the price is not stale. -/
def askBidFromPriceFeed (st : ManagerState) (now : ℚ) (symbol : String) : Option (ℚ × ℚ) :=
  match st.is_initialized, st.price_feed with
  | true, some pf =>
    match get_ticker pf symbol with
    | some tk =>
      if 0 < tk.ask ∧ 0 < tk.bid then
        if is_price_stale pf symbol now PRICE_STALE_THRESHOLD_SEC = false then
          some (tk.ask, tk.bid)
        else none
      else none
    | none => none
  | _, _ => none

/-- The order-book branch of `get_ask_bid`: serves the book's best ask/bid
when the manager is initialized, the book exists with truthy (present and
nonzero) best ask and bid, and the book is not stale. -/
def askBidFromOrderbook (st : ManagerState) (now : ℚ) (symbol : String) : Option (ℚ × ℚ) :=
  match st.is_initialized, st.orderbook_feed with
  | true, some obs =>
    match get_orderbook obs symbol with
    | some book =>
      match book.best_ask, book.best_bid with
      | some a, some b =>
        if a ≠ 0 ∧ b ≠ 0 then
          if is_orderbook_stale obs symbol now ORDERBOOK_STALE_THRESHOLD_SEC = false then
            some (a, b)
          else none
        else none
      | _, _ => none
    | none => none
  | _, _ => none

/-- `WebSocketDataManager.get_ask_bid`: price feed first, then order book,
then API fallback if permitted, else raise. -/
def get_ask_bid (st : ManagerState) (now : ℚ) (symbol : String) : AskBidResult :=
  match askBidFromPriceFeed st now symbol with
  | some p => .pair p.1 p.2
  | none =>
    match askBidFromOrderbook st now symbol with
    | some p => .pair p.1 p.2
    | none => if st.fallback_to_api then .fallbackCall else .unavailable

/-- Result of one `get_current_price` call: the value served, how many
synchronous fallback calls were performed during the call, and the manager
state afterwards. `none` as value stands for the raised exception. -/
structure ReadOutcome where
  value : Option ℚ
  fallbackCalls : ℕ
  finalState : ManagerState
deriving DecidableEq, Repr

/-- `WebSocketDataManager.get_current_price`; `apiPrice` is the value the
synchronous fallback API would return. -/
def get_current_price (st : ManagerState) (now : ℚ) (symbol : String) (apiPrice : ℚ) :
    ReadOutcome :=
  let ws : Option ℚ :=
    match st.is_initialized, st.price_feed with
    | true, some pf =>
      match get_price pf symbol with
      | some p =>
        if is_price_stale pf symbol now PRICE_STALE_THRESHOLD_SEC = false then some p
        else none
      | none => none
    | _, _ => none
  match ws with
  | some p => ⟨some p, 0, st⟩
  | none => if st.fallback_to_api then ⟨some apiPrice, 1, st⟩ else ⟨none, 0, st⟩

/-- `WebSocketDataManager.start`: the early-return paths; `connectPath`
stands for the locked block that creates the shared transport and the three
feeds (not entered when WebSocket mode is disabled). -/
def managerStart (connectPath : ManagerState → Bool × ManagerState) (st : ManagerState) :
    Bool × ManagerState :=
  if st.is_initialized then (true, st)
  else if st.use_websocket = false then (false, st)
  else connectPath st

/-- Result of `WebSocketDataManager.get_position`: either the 7-tuple
`(positions, im_in_pos, pos_size, pos_sym, entry_px, pnl_perc, is_long)` or a
delegation to the API fallback. -/
inductive GetPositionResult where
  | tuple (positions : List PositionDict) (im_in_pos : Bool) (pos_size : ℚ)
      (pos_sym : String) (entry_px : ℚ) (pnl_perc : ℚ) (long : Bool)
  | fallbackCall
deriving DecidableEq, Repr

/-- `WebSocketDataManager.get_position` (30-second staleness threshold). -/
def manager_get_position (st : ManagerState) (now : ℚ) (symbol : String) : GetPositionResult :=
  match st.is_initialized, st.user_state_feed with
  | true, some uf =>
    match feed_get_position uf symbol with
    | some p =>
      if is_position_stale uf symbol now 30 = false then
        .tuple [p.to_dict] true p.size p.coin p.entry_price p.pnl_percent p.is_long
      else if has_position uf symbol = false then
        .tuple [] false 0 symbol 0 0 true
      else if st.fallback_to_api then .fallbackCall
      else .tuple [] false 0 symbol 0 0 true
    | none =>
      if has_position uf symbol = false then
        .tuple [] false 0 symbol 0 0 true
      else if st.fallback_to_api then .fallbackCall
      else .tuple [] false 0 symbol 0 0 true
  | _, _ =>
    if st.fallback_to_api then .fallbackCall else .tuple [] false 0 symbol 0 0 true

/-! ### Theorems -/

theorem dictLookup_erase_self {α : Type} (k : String) (d : List (String × α)) :
    dictLookup k (dictErase k d) = none := by
  induction d with
  | nil => rfl
  | cons p rest ih =>
    by_cases h : p.1 = k
    · simpa [dictErase, h] using ih
    · simpa [dictErase, dictLookup, h] using ih

theorem dictLookup_erase_ne {α : Type} {k' k : String} (h : k' ≠ k) (d : List (String × α)) :
    dictLookup k (dictErase k' d) = dictLookup k d := by
  induction d with
  | nil => rfl
  | cons p rest ih =>
    by_cases hp : p.1 = k'
    · have hpk : ¬ p.1 = k := by rw [hp]; exact h
      simp [dictErase, dictLookup, hp, hpk, h, ih]
    · by_cases hpk : p.1 = k
      · simp [dictErase, dictLookup, hp, hpk, Ne.symm h]
      · simp [dictErase, dictLookup, hp, hpk, ih]

theorem dictLookup_append_left {α : Type} {k : String} {d₁ : List (String × α)}
    (h : dictLookup k d₁ = none) (d₂ : List (String × α)) :
    dictLookup k (d₁ ++ d₂) = dictLookup k d₂ := by
  induction d₁ with
  | nil => rfl
  | cons p rest ih =>
    by_cases hp : p.1 = k
    · simp [dictLookup, hp] at h
    · simp only [dictLookup, hp, if_false] at h
      simpa [dictLookup, hp] using ih h

theorem dictLookup_insert_self {α : Type} (k : String) (v : α) (d : List (String × α)) :
    dictLookup k (dictInsert k v d) = some v := by
  unfold dictInsert
  rw [dictLookup_append_left (dictLookup_erase_self k d)]
  simp [dictLookup]

theorem dictLookup_insert_ne {α : Type} {k' k : String} (h : k' ≠ k) (v : α)
    (d : List (String × α)) :
    dictLookup k (dictInsert k' v d) = dictLookup k d := by
  unfold dictInsert
  rw [← dictLookup_erase_ne h d]
  generalize dictErase k' d = d'
  induction d' with
  | nil => simp [dictLookup, h]
  | cons p rest ih =>
    by_cases hp : p.1 = k
    · simp [dictLookup, hp]
    · simp [dictLookup, hp, ih]

theorem list_sum_nonneg {l : List ℚ} (h : ∀ x ∈ l, 0 ≤ x) : 0 ≤ l.sum := by
  induction l with
  | nil => simp
  | cons a t ih =>
    have ha := h a (List.mem_cons_self a t)
    have ht := ih (fun x hx => h x (List.mem_cons_of_mem a hx))
    simpa using add_nonneg ha ht

theorem bid_depth_nonneg (b : OrderBook) (h : ∀ lv ∈ b.bids, 0 ≤ lv.size) :
    0 ≤ b.bid_depth := by
  apply list_sum_nonneg
  intro x hx
  rcases List.mem_map.mp hx with ⟨lv, hlv, rfl⟩
  exact h lv hlv

theorem ask_depth_nonneg (b : OrderBook) (h : ∀ lv ∈ b.asks, 0 ≤ lv.size) :
    0 ≤ b.ask_depth := by
  apply list_sum_nonneg
  intro x hx
  rcases List.mem_map.mp hx with ⟨lv, hlv, rfl⟩
  exact h lv hlv

/-- C8: for every order book with nonnegative level sizes, `imbalance` lies in
`[-1, 1]`; it equals `(bid_depth - ask_depth) / (bid_depth + ask_depth)` whenever
the total depth is nonzero; it is `0` when both sides are empty; it is a pure
function of the two ladders (computed on read, never stored separately); and
`bid_depth = 30`, `ask_depth = 10` yields imbalance `1/2`. -/
theorem imbalance_bounds_and_formula (b : OrderBook)
    (h : ∀ lv ∈ b.bids ++ b.asks, 0 ≤ lv.size) :
    (-1 ≤ b.imbalance ∧ b.imbalance ≤ 1)
    ∧ (b.bid_depth + b.ask_depth ≠ 0 →
        b.imbalance = (b.bid_depth - b.ask_depth) / (b.bid_depth + b.ask_depth))
    ∧ (b.bids = [] → b.asks = [] → b.imbalance = 0)
    ∧ (∀ b' : OrderBook, b'.bids = b.bids → b'.asks = b.asks → b'.imbalance = b.imbalance)
    ∧ OrderBook.imbalance
        { coin := "BTC", bids := [{ price := 100, size := 30, count := 1 }],
          asks := [{ price := 101, size := 10, count := 1 }],
          last_update := 0, sequence := 0 } = 1 / 2 := by
  have hb : 0 ≤ b.bid_depth :=
    bid_depth_nonneg b (fun lv hlv => h lv (List.mem_append_left _ hlv))
  have ha : 0 ≤ b.ask_depth :=
    ask_depth_nonneg b (fun lv hlv => h lv (List.mem_append_right _ hlv))
  refine ⟨?_, ?_, ?_, ?_,
    by norm_num [OrderBook.imbalance, OrderBook.bid_depth, OrderBook.ask_depth]⟩
  · by_cases htot : b.bid_depth + b.ask_depth = 0
    · simp [OrderBook.imbalance, htot]
    · have hpos : 0 < b.bid_depth + b.ask_depth :=
        lt_of_le_of_ne (add_nonneg hb ha) (Ne.symm htot)
      constructor
      · rw [OrderBook.imbalance]
        simp only [htot, if_false]
        rw [le_div_iff₀ hpos]
        linarith
      · rw [OrderBook.imbalance]
        simp only [htot, if_false]
        rw [div_le_one hpos]
        linarith
  · intro htot
    simp [OrderBook.imbalance, htot]
  · intro hbids hasks
    simp [OrderBook.imbalance, OrderBook.bid_depth, OrderBook.ask_depth, hbids, hasks]
  · intro b' h1 h2
    simp [OrderBook.imbalance, OrderBook.bid_depth, OrderBook.ask_depth, h1, h2]

/-- C8 witness: the bound and formula hold at a concrete order book with
bid depth 30 and ask depth 10, whose imbalance is 1/2. -/
theorem imbalance_bounds_and_formula_witness :
    (-1 ≤ OrderBook.imbalance
        { coin := "BTC", bids := [{ price := 100, size := 30, count := 1 }],
          asks := [{ price := 101, size := 10, count := 1 }],
          last_update := 0, sequence := 0 }) ∧
    OrderBook.imbalance
        { coin := "BTC", bids := [{ price := 100, size := 30, count := 1 }],
          asks := [{ price := 101, size := 10, count := 1 }],
          last_update := 0, sequence := 0 } = 1 / 2 :=
  ⟨(imbalance_bounds_and_formula _ (by decide)).1.1,
   (imbalance_bounds_and_formula
      { coin := "BTC", bids := [{ price := 100, size := 30, count := 1 }],
        asks := [{ price := 101, size := 10, count := 1 }],
        last_update := 0, sequence := 0 } (by decide)).2.2.2.2⟩

theorem emitsFor_nil (coin : String) : emitsFor coin [] = [] := rfl

theorem emitsFor_cons (coin : String) (t : ℚ) (c : String) (log : List (ℚ × String)) :
    emitsFor coin ((t, c) :: log) =
      if c = coin then t :: emitsFor coin log else emitsFor coin log := by
  by_cases h : c = coin
  · simp [emitsFor, h]
  · simp [emitsFor, h]

theorem processL2_spec (st : OrderBookFeedState) (now : ℚ) (msg : L2Msg)
    (h1 : msg.coin ≠ "") (h2 : 2 ≤ msg.levels.length) :
    (processL2 st now msg).1.orderbooks =
      dictInsert msg.coin (newBookFor st now msg) st.orderbooks := by
  unfold processL2
  have hcond : ¬ (msg.coin = "" ∨ msg.levels.length < 2) := by
    push_neg
    exact ⟨h1, by omega⟩
  rw [if_neg hcond]
  unfold maybeEmit
  split <;> rfl

theorem processL2_emit_spec (st : OrderBookFeedState) (now : ℚ) (msg : L2Msg) :
    (processL2 st now msg).1.update_throttle_ms = st.update_throttle_ms ∧
    (((processL2 st now msg).2 = false ∧
        (processL2 st now msg).1.last_emit_time = st.last_emit_time) ∨
      ((processL2 st now msg).2 = true ∧
        st.update_throttle_ms ≤ 1000 * now - (dictLookup msg.coin st.last_emit_time).getD 0 ∧
        (processL2 st now msg).1.last_emit_time =
          dictInsert msg.coin (1000 * now) st.last_emit_time)) := by
  unfold processL2
  split
  · exact ⟨rfl, Or.inl ⟨rfl, rfl⟩⟩
  · unfold maybeEmit
    split
    · next hcond => exact ⟨rfl, Or.inr ⟨rfl, hcond, rfl⟩⟩
    · exact ⟨rfl, Or.inl ⟨rfl, rfl⟩⟩

theorem runTrace_emitGapsOk (throttle : ℚ) :
    ∀ (trace : List (ℚ × L2Msg)) (st : OrderBookFeedState),
      st.update_throttle_ms = throttle →
      ∀ coin, emitGapsOk throttle ((dictLookup coin st.last_emit_time).getD 0)
        (emitsFor coin (runTrace st trace).2)
  | [], _, _, _ => trivial
  | (t, msg) :: rest, st, hth, coin => by
    have hspec := processL2_emit_spec st t msg
    rcases hspec with ⟨hthr, hcase⟩
    have hth1 : (processL2 st t msg).1.update_throttle_ms = throttle := by rw [hthr, hth]
    have ih := runTrace_emitGapsOk throttle rest (processL2 st t msg).1 hth1 coin
    rcases hcase with ⟨hfalse, hsame⟩ | ⟨htrue, hgap, hins⟩
    · simp only [runTrace, hfalse, if_false, List.nil_append]
      rw [hsame] at ih
      exact ih
    · simp only [runTrace, htrue, if_true, List.cons_append, List.nil_append]
      rw [emitsFor_cons]
      by_cases hc : msg.coin = coin
      · rw [if_pos hc]
        subst hc
        refine ⟨by rw [hth] at hgap; exact hgap, ?_⟩
        rw [hins, dictLookup_insert_self] at ih
        exact ih
      · rw [if_neg hc]
        rw [hins, dictLookup_insert_ne hc] at ih
        exact ih

theorem emitGapsOk_chain (throttle : ℚ) :
    ∀ (ts : List ℚ) (L : ℚ), emitGapsOk throttle L ts →
      List.Chain' (fun t1 t2 => throttle ≤ 1000 * (t2 - t1)) ts
  | [], _, _ => List.chain'_nil
  | [t], _, _ => List.chain'_singleton t
  | t :: t' :: rest, L, h => by
    rcases h with ⟨h1, h2⟩
    have hr := emitGapsOk_chain throttle (t' :: rest) (1000 * t) h2
    rcases h2 with ⟨h21, _⟩
    refine List.chain'_cons.mpr ⟨by linarith, hr⟩

/-- C4: starting from a feed with no prior dispatches, listener dispatches for
any given coin are never less than `update_throttle_ms` apart (the source
compares with `>=`, so a gap of exactly the throttle is dispatched), while the
stored book's sequence counter advances on every valid message regardless of
throttling; concretely, two messages for the same coin 10 ms apart with a
100 ms throttle update the stored book twice (sequence 2) but produce exactly
one dispatch. -/
theorem orderbook_update_throttling :
    (∀ (depth : ℕ) (throttle : ℚ) (books : List (String × OrderBook))
        (trace : List (ℚ × L2Msg)) (coin : String),
      List.Chain' (fun t1 t2 => throttle ≤ 1000 * (t2 - t1))
        (emitsFor coin (runTrace ⟨depth, throttle, books, []⟩ trace).2))
    ∧ (∀ (st : OrderBookFeedState) (now : ℚ) (msg : L2Msg) (bk : OrderBook),
        msg.coin ≠ "" → 2 ≤ msg.levels.length →
        dictLookup msg.coin st.orderbooks = some bk →
        (dictLookup msg.coin (processL2 st now msg).1.orderbooks).map OrderBook.sequence =
          some (bk.sequence + 1))
    ∧ ((dictLookup "BTC"
          (runTrace ⟨20, 100, [("BTC", emptyBookAt "BTC" 999)], []⟩
            [(1000, ⟨"BTC", [[.ok 100 1 1], [.ok 101 1 1]]⟩),
             (1000 + 1/100, ⟨"BTC", [[.ok 100 1 1], [.ok 101 1 1]]⟩)]).1.orderbooks).map
          OrderBook.sequence = some 2
       ∧ (runTrace ⟨20, 100, [("BTC", emptyBookAt "BTC" 999)], []⟩
            [(1000, ⟨"BTC", [[.ok 100 1 1], [.ok 101 1 1]]⟩),
             (1000 + 1/100, ⟨"BTC", [[.ok 100 1 1], [.ok 101 1 1]]⟩)]).2 = [(1000, "BTC")]) := by
  refine ⟨?_, ?_, ?_⟩
  · intro depth throttle books trace coin
    exact emitGapsOk_chain throttle _ _
      (runTrace_emitGapsOk throttle trace ⟨depth, throttle, books, []⟩ rfl coin)
  · intro st now msg bk h1 h2 hbk
    rw [processL2_spec st now msg h1 h2, dictLookup_insert_self]
    simp [newBookFor, hbk]
  · have hne : ("BTC" : String) ≠ "" := by decide
    constructor
    · norm_num [runTrace, processL2, maybeEmit, newBookFor, parseLevels, parseLevel,
        emptyBookAt, dictLookup, dictInsert, dictErase, hne]
    · norm_num [runTrace, processL2, maybeEmit, newBookFor, parseLevels, parseLevel,
        emptyBookAt, dictLookup, dictInsert, dictErase, hne]

/-- C4 witness: the sequence-increment part applied at a concrete feed state
and message. -/
theorem orderbook_update_throttling_witness :
    (dictLookup "BTC"
        (processL2 ⟨20, 100, [("BTC", emptyBookAt "BTC" 0)], []⟩ 1
          ⟨"BTC", [[.ok 100 1 1], [.ok 101 1 1]]⟩).1.orderbooks).map OrderBook.sequence =
      some 1 :=
  orderbook_update_throttling.2.1
    ⟨20, 100, [("BTC", emptyBookAt "BTC" 0)], []⟩ 1
    ⟨"BTC", [[.ok 100 1 1], [.ok 101 1 1]]⟩ (emptyBookAt "BTC" 0)
    (by decide) (by decide) (by decide)

/-- C2 counterexample: `_process_l2_book` stores the ladders in message order
and never sorts. A message for a tracked instrument with 5 parseable bid
levels whose prices arrive ascending yields a stored bid ladder of length 5
(with sequence bumped to 1 and 3 asks) that is not sorted descending by
price. -/
theorem l2book_sortedness_counterexample :
    ((dictLookup "BTC"
        (processL2 ⟨20, 100, [("BTC", emptyBookAt "BTC" 0)], []⟩ 1
          ⟨"BTC", [[.ok 1 1 1, .ok 2 1 1, .ok 3 1 1, .ok 4 1 1, .ok 5 1 1],
                   [.ok 10 1 1, .ok 20 1 1, .ok 30 1 1]]⟩).1.orderbooks).map
        (fun bk => (bk.bids.map (fun lv => lv.price), bk.asks.length, bk.sequence)) =
      some ([1, 2, 3, 4, 5], 3, 1))
    ∧ ¬ List.Pairwise (fun a b : ℚ => b ≤ a) [1, 2, 3, 4, 5] := by
  have hne : ("BTC" : String) ≠ "" := by decide
  constructor
  · norm_num [processL2, maybeEmit, newBookFor, parseLevels, parseLevel,
      List.filterMap_cons, emptyBookAt, dictLookup, dictInsert, dictErase, hne]
  · intro h
    have := (List.pairwise_cons.mp h).1 2 (by simp)
    norm_num at this

/-- C2 (amended): for a message with 5 bid and 3 ask levels that all parse and
whose ladders arrive exchange-sorted (bids descending, asks ascending, as the
wire format delivers them), the stored book has exactly those parsed ladders —
replaced wholesale, never merged — with bids of length 5 sorted descending,
asks of length 3 sorted ascending, a refreshed timestamp and the sequence
counter incremented by exactly 1; in general at most `depth_levels` entries
per side are ever stored. -/
theorem l2book_replaces_ladders (st : OrderBookFeedState) (now : ℚ) (msg : L2Msg)
    (rb ra : List RawLevel)
    (hcoin : msg.coin ≠ "")
    (hlv : msg.levels = [rb, ra])
    (hdepth : st.depth_levels = 20)
    (hbparse : (parseLevels 20 rb).length = 5)
    (haparse : (parseLevels 20 ra).length = 3)
    (hbsort : List.Pairwise (fun a b : OrderLevel => b.price ≤ a.price) (parseLevels 20 rb))
    (hasort : List.Pairwise (fun a b : OrderLevel => a.price ≤ b.price) (parseLevels 20 ra)) :
    (∃ bk, get_orderbook (processL2 st now msg).1 msg.coin = some bk
      ∧ bk.bids = parseLevels 20 rb
      ∧ bk.asks = parseLevels 20 ra
      ∧ bk.bids.length = 5
      ∧ bk.asks.length = 3
      ∧ List.Pairwise (fun a b : OrderLevel => b.price ≤ a.price) bk.bids
      ∧ List.Pairwise (fun a b : OrderLevel => a.price ≤ b.price) bk.asks
      ∧ bk.sequence = ((dictLookup msg.coin st.orderbooks).map OrderBook.sequence).getD 0 + 1
      ∧ bk.last_update = now)
    ∧ ∀ (st' : OrderBookFeedState) (now' : ℚ) (msg' : L2Msg) (bk' : OrderBook),
        msg'.coin ≠ "" → 2 ≤ msg'.levels.length →
        get_orderbook (processL2 st' now' msg').1 msg'.coin = some bk' →
        bk'.bids.length ≤ st'.depth_levels ∧ bk'.asks.length ≤ st'.depth_levels := by
  have h2 : 2 ≤ msg.levels.length := by rw [hlv]; simp
  constructor
  · refine ⟨newBookFor st now msg, ?_, ?_, ?_, ?_, ?_, ?_, ?_, ?_, ?_⟩
    · unfold get_orderbook
      rw [processL2_spec st now msg hcoin h2, dictLookup_insert_self]
    · simp [newBookFor, hlv, hdepth]
    · simp [newBookFor, hlv, hdepth]
    · simp only [newBookFor, hlv, hdepth]
      simpa using hbparse
    · simp only [newBookFor, hlv, hdepth]
      simpa using haparse
    · simp only [newBookFor, hlv, hdepth]
      simpa using hbsort
    · simp only [newBookFor, hlv, hdepth]
      simpa using hasort
    · cases hbk : dictLookup msg.coin st.orderbooks with
      | none => simp [newBookFor, hbk, emptyBookAt]
      | some old => simp [newBookFor, hbk]
    · simp [newBookFor]
  · intro st' now' msg' bk' h1' h2' hbk'
    unfold get_orderbook at hbk'
    rw [processL2_spec st' now' msg' h1' h2', dictLookup_insert_self] at hbk'
    cases hbk'
    constructor
    · exact le_trans (List.length_filterMap_le _ _) (List.length_take_le _ _)
    · exact le_trans (List.length_filterMap_le _ _) (List.length_take_le _ _)

/-- C2 witness: the amended statement applied to a concrete exchange-sorted
message with 5 bids and 3 asks. -/
theorem l2book_replaces_ladders_witness :
    (∃ bk,
      get_orderbook
        (processL2 ⟨20, 100, [], []⟩ 1
          (⟨"BTC", [[.ok 5 1 1, .ok 4 1 1, .ok 3 1 1, .ok 2 1 1, .ok 1 1 1],
                    [.ok 10 1 1, .ok 20 1 1, .ok 30 1 1]]⟩ : L2Msg)).1
        (L2Msg.coin ⟨"BTC", [[.ok 5 1 1, .ok 4 1 1, .ok 3 1 1, .ok 2 1 1, .ok 1 1 1],
                    [.ok 10 1 1, .ok 20 1 1, .ok 30 1 1]]⟩) = some bk
      ∧ bk.bids = parseLevels 20 [.ok 5 1 1, .ok 4 1 1, .ok 3 1 1, .ok 2 1 1, .ok 1 1 1]
      ∧ bk.asks = parseLevels 20 [.ok 10 1 1, .ok 20 1 1, .ok 30 1 1]
      ∧ bk.bids.length = 5
      ∧ bk.asks.length = 3
      ∧ List.Pairwise (fun a b : OrderLevel => b.price ≤ a.price) bk.bids
      ∧ List.Pairwise (fun a b : OrderLevel => a.price ≤ b.price) bk.asks
      ∧ bk.sequence = ((dictLookup
          (L2Msg.coin ⟨"BTC", [[.ok 5 1 1, .ok 4 1 1, .ok 3 1 1, .ok 2 1 1, .ok 1 1 1],
                    [.ok 10 1 1, .ok 20 1 1, .ok 30 1 1]]⟩)
          (OrderBookFeedState.orderbooks ⟨20, 100, [], []⟩)).map OrderBook.sequence).getD 0 + 1
      ∧ bk.last_update = 1)
    ∧ ∀ (st' : OrderBookFeedState) (now' : ℚ) (msg' : L2Msg) (bk' : OrderBook),
        msg'.coin ≠ "" → 2 ≤ msg'.levels.length →
        get_orderbook (processL2 st' now' msg').1 msg'.coin = some bk' →
        bk'.bids.length ≤ st'.depth_levels ∧ bk'.asks.length ≤ st'.depth_levels :=
  l2book_replaces_ladders ⟨20, 100, [], []⟩ 1
    ⟨"BTC", [[.ok 5 1 1, .ok 4 1 1, .ok 3 1 1, .ok 2 1 1, .ok 1 1 1],
             [.ok 10 1 1, .ok 20 1 1, .ok 30 1 1]]⟩
    [.ok 5 1 1, .ok 4 1 1, .ok 3 1 1, .ok 2 1 1, .ok 1 1 1]
    [.ok 10 1 1, .ok 20 1 1, .ok 30 1 1]
    (by decide) rfl rfl (by decide) (by decide)
    (by norm_num [parseLevels, parseLevel, List.filterMap_cons, List.pairwise_cons])
    (by norm_num [parseLevels, parseLevel, List.filterMap_cons, List.pairwise_cons])

theorem obStart_lookup (t : ℚ) :
    ∀ (coins : List String) (d : List (String × OrderBook)) (coin : String),
      (dictLookup coin d = some (emptyBookAt coin t) ∨ coin ∈ coins) →
      dictLookup coin (coins.foldl (fun d c => dictInsert c (emptyBookAt c t) d) d) =
        some (emptyBookAt coin t)
  | [], d, coin, h => by
    rcases h with h | h
    · simpa using h
    · simp at h
  | c :: cs, d, coin, h => by
    simp only [List.foldl_cons]
    apply obStart_lookup t cs
    by_cases hmem : coin ∈ cs
    · exact Or.inr hmem
    · left
      by_cases hc : c = coin
      · subst hc
        exact dictLookup_insert_self c (emptyBookAt c t) d
      · rw [dictLookup_insert_ne hc]
        rcases h with h | h
        · exact h
        · rcases List.mem_cons.mp h with h | h
          · exact absurd h.symm hc
          · exact absurd h hmem

/-- C10: immediately after the subscription loop of `OrderBookFeed.start` at
time `t`, every subscribed coin has a stored `OrderBook` with empty bids,
empty asks and sequence 0 (not the missing-instrument sentinel), whose
`best_bid`/`best_ask` are the sentinel, and `is_orderbook_stale` reports it
fresh as long as the staleness threshold has not elapsed since `t`. -/
theorem obStart_initializes (coins : List String) (t : ℚ) (st : OrderBookFeedState)
    (coin : String) (hmem : coin ∈ coins) :
    get_orderbook (obStart coins t st) coin = some (emptyBookAt coin t)
    ∧ (emptyBookAt coin t).bids = []
    ∧ (emptyBookAt coin t).asks = []
    ∧ (emptyBookAt coin t).sequence = 0
    ∧ (emptyBookAt coin t).best_bid = none
    ∧ (emptyBookAt coin t).best_ask = none
    ∧ ∀ now maxAge : ℚ, now - t ≤ maxAge →
        is_orderbook_stale (obStart coins t st) coin now maxAge = false := by
  have hlook : dictLookup coin (obStart coins t st).orderbooks = some (emptyBookAt coin t) :=
    obStart_lookup t coins st.orderbooks coin (Or.inr hmem)
  refine ⟨hlook, rfl, rfl, rfl, rfl, rfl, ?_⟩
  intro now maxAge hage
  simp only [is_orderbook_stale, hlook, emptyBookAt]
  exact decide_eq_false (not_lt.mpr hage)

/-- C10 witness: a concretely started feed serves an empty fresh book. -/
theorem obStart_initializes_witness :
    get_orderbook (obStart ["BTC"] 0 ⟨20, 100, [], []⟩) "BTC" = some (emptyBookAt "BTC" 0)
    ∧ is_orderbook_stale (obStart ["BTC"] 0 ⟨20, 100, [], []⟩) "BTC" 1 2 = false :=
  ⟨(obStart_initializes ["BTC"] 0 ⟨20, 100, [], []⟩ "BTC" (by decide)).1,
   (obStart_initializes ["BTC"] 0 ⟨20, 100, [], []⟩ "BTC"
      (by decide)).2.2.2.2.2.2 1 2 (by norm_num)⟩

/-- C6: `is_price_stale` and `is_orderbook_stale` return true exactly when
the instrument is untracked or the age of its last update strictly exceeds
the threshold. The boundary comparison is strict `>`: a record updated at `T`
is fresh at `T + 4.99` (and even at exactly `T + 5`) and stale at `T + 5.01`
for a 5-second threshold, and a never-seen instrument is always stale. -/
theorem staleness_strict_boundary :
    (∀ (pf : PriceFeedState) (coin : String) (now maxAge : ℚ),
      is_price_stale pf coin now maxAge = true ↔
        dictLookup coin pf.prices = none ∨
          ∃ tk, dictLookup coin pf.prices = some tk ∧ now - tk.last_update > maxAge)
    ∧ (∀ (st : OrderBookFeedState) (coin : String) (now maxAge : ℚ),
      is_orderbook_stale st coin now maxAge = true ↔
        dictLookup coin st.orderbooks = none ∨
          ∃ bk, dictLookup coin st.orderbooks = some bk ∧ now - bk.last_update > maxAge)
    ∧ (∀ (T : ℚ) (coin : String) (tk : TickerData), tk.last_update = T →
        is_price_stale ⟨[(coin, tk)]⟩ coin (T + 499/100) 5 = false
        ∧ is_price_stale ⟨[(coin, tk)]⟩ coin (T + 5) 5 = false
        ∧ is_price_stale ⟨[(coin, tk)]⟩ coin (T + 501/100) 5 = true)
    ∧ (∀ (pf : PriceFeedState) (coin : String) (now maxAge : ℚ),
        dictLookup coin pf.prices = none → is_price_stale pf coin now maxAge = true) := by
  refine ⟨?_, ?_, ?_, ?_⟩
  · intro pf coin now maxAge
    cases h : dictLookup coin pf.prices with
    | none => simp [is_price_stale, h]
    | some tk => simp [is_price_stale, h]
  · intro st coin now maxAge
    cases h : dictLookup coin st.orderbooks with
    | none => simp [is_orderbook_stale, h]
    | some bk => simp [is_orderbook_stale, h]
  · intro T coin tk h
    have hl : dictLookup coin [(coin, tk)] = some tk := by simp [dictLookup]
    refine ⟨?_, ?_, ?_⟩ <;> simp only [is_price_stale, hl, h]
    · exact decide_eq_false (by norm_num)
    · exact decide_eq_false (by norm_num)
    · exact decide_eq_true (by norm_num)
  · intro pf coin now maxAge h
    simp [is_price_stale, h]

/-- C6 witness: the strict boundary at a concrete ticker updated at time
1000, and staleness of an untracked instrument, via the theorem. -/
theorem staleness_strict_boundary_witness :
    (is_price_stale ⟨[("BTC", ⟨"BTC", 100, 99, 101, 0, 0, 1000⟩)]⟩ "BTC" (1000 + 499/100) 5 = false
      ∧ is_price_stale ⟨[("BTC", ⟨"BTC", 100, 99, 101, 0, 0, 1000⟩)]⟩ "BTC" (1000 + 5) 5 = false
      ∧ is_price_stale ⟨[("BTC", ⟨"BTC", 100, 99, 101, 0, 0, 1000⟩)]⟩ "BTC" (1000 + 501/100) 5 = true)
    ∧ is_price_stale ⟨[]⟩ "ETH" 0 5 = true :=
  ⟨staleness_strict_boundary.2.2.1 1000 "BTC" ⟨"BTC", 100, 99, 101, 0, 0, 1000⟩ rfl,
   staleness_strict_boundary.2.2.2 ⟨[]⟩ "ETH" 0 5 rfl⟩

/-- C1 counterexample: `get_ask_bid` checks the price feed first. In a state
where the price-feed ticker (ask 101, bid 99) and the order-book book (best
ask 102, best bid 98) are both fresh and positive, the returned pair is the
price feed's fields, not the order book's best ask/bid. -/
theorem ask_bid_prefers_price_feed_counterexample :
    askBidFromPriceFeed
      ⟨true, true, true, some ⟨[("BTC", ⟨"BTC", 100, 99, 101, 0, 0, 1000⟩)]⟩,
        some ⟨20, 100, [("BTC", ⟨"BTC", [⟨98, 1, 1⟩], [⟨102, 1, 1⟩], 1000, 1⟩)], []⟩, none⟩
      1000 "BTC" = some (101, 99)
    ∧ askBidFromOrderbook
      ⟨true, true, true, some ⟨[("BTC", ⟨"BTC", 100, 99, 101, 0, 0, 1000⟩)]⟩,
        some ⟨20, 100, [("BTC", ⟨"BTC", [⟨98, 1, 1⟩], [⟨102, 1, 1⟩], 1000, 1⟩)], []⟩, none⟩
      1000 "BTC" = some (102, 98)
    ∧ get_ask_bid
      ⟨true, true, true, some ⟨[("BTC", ⟨"BTC", 100, 99, 101, 0, 0, 1000⟩)]⟩,
        some ⟨20, 100, [("BTC", ⟨"BTC", [⟨98, 1, 1⟩], [⟨102, 1, 1⟩], 1000, 1⟩)], []⟩, none⟩
      1000 "BTC" = AskBidResult.pair 101 99
    ∧ AskBidResult.pair (101 : ℚ) (99 : ℚ) ≠ AskBidResult.pair 102 98 := by
  have h1 : askBidFromPriceFeed
      ⟨true, true, true, some ⟨[("BTC", ⟨"BTC", 100, 99, 101, 0, 0, 1000⟩)]⟩,
        some ⟨20, 100, [("BTC", ⟨"BTC", [⟨98, 1, 1⟩], [⟨102, 1, 1⟩], 1000, 1⟩)], []⟩, none⟩
      1000 "BTC" = some (101, 99) := by
    norm_num [askBidFromPriceFeed, get_ticker, is_price_stale, dictLookup,
      PRICE_STALE_THRESHOLD_SEC, decide_eq_false_iff_not]
  have h2 : askBidFromOrderbook
      ⟨true, true, true, some ⟨[("BTC", ⟨"BTC", 100, 99, 101, 0, 0, 1000⟩)]⟩,
        some ⟨20, 100, [("BTC", ⟨"BTC", [⟨98, 1, 1⟩], [⟨102, 1, 1⟩], 1000, 1⟩)], []⟩, none⟩
      1000 "BTC" = some (102, 98) := by
    norm_num [askBidFromOrderbook, get_orderbook, is_orderbook_stale, dictLookup,
      OrderBook.best_ask, OrderBook.best_bid, ORDERBOOK_STALE_THRESHOLD_SEC,
      decide_eq_false_iff_not]
  refine ⟨h1, h2, ?_, by decide⟩
  unfold get_ask_bid
  rw [h1]

/-- C1 (amended): the price-feed branch is consulted first; the order book's
best ask/bid is served only when the price-feed branch yields nothing (ticker
absent, non-positive, or stale). Whenever that branch fails and the book's
best ask/bid are available (nonzero) and fresh, `get_ask_bid` returns the
order book's best ask and best bid; whenever the ticker is fresh with
positive ask/bid, the price feed's fields are returned instead. -/
theorem ask_bid_orderbook_is_second_choice (st : ManagerState) (now : ℚ) (symbol : String) :
    (∀ a b : ℚ, askBidFromPriceFeed st now symbol = some (a, b) →
      get_ask_bid st now symbol = AskBidResult.pair a b)
    ∧ (∀ a b : ℚ, askBidFromPriceFeed st now symbol = none →
      askBidFromOrderbook st now symbol = some (a, b) →
      get_ask_bid st now symbol = AskBidResult.pair a b)
    ∧ (∀ (obs : OrderBookFeedState) (book : OrderBook) (a b : ℚ),
      st.is_initialized = true → st.orderbook_feed = some obs →
      get_orderbook obs symbol = some book →
      book.best_ask = some a → book.best_bid = some b → a ≠ 0 → b ≠ 0 →
      is_orderbook_stale obs symbol now ORDERBOOK_STALE_THRESHOLD_SEC = false →
      askBidFromOrderbook st now symbol = some (a, b)) := by
  refine ⟨?_, ?_, ?_⟩
  · intro a b h
    unfold get_ask_bid
    rw [h]
  · intro a b h1 h2
    unfold get_ask_bid
    rw [h1, h2]
  · intro obs book a b hinit hobs hbook hask hbid ha hb hstale
    unfold askBidFromOrderbook
    rw [hinit, hobs]
    simp only [hbook, hask, hbid]
    rw [if_pos ⟨ha, hb⟩, if_pos hstale]

/-- C1 witness: with a stale ticker (last update 0, read at 1000) and a fresh
book, `get_ask_bid` serves the order book's best ask/bid. -/
theorem ask_bid_orderbook_is_second_choice_witness :
    get_ask_bid
      ⟨true, true, true, some ⟨[("BTC", ⟨"BTC", 100, 99, 101, 0, 0, 0⟩)]⟩,
        some ⟨20, 100, [("BTC", ⟨"BTC", [⟨98, 1, 1⟩], [⟨102, 1, 1⟩], 1000, 1⟩)], []⟩, none⟩
      1000 "BTC" = AskBidResult.pair 102 98 :=
  (ask_bid_orderbook_is_second_choice
      ⟨true, true, true, some ⟨[("BTC", ⟨"BTC", 100, 99, 101, 0, 0, 0⟩)]⟩,
        some ⟨20, 100, [("BTC", ⟨"BTC", [⟨98, 1, 1⟩], [⟨102, 1, 1⟩], 1000, 1⟩)], []⟩, none⟩
      1000 "BTC").2.1 102 98
    (by norm_num [askBidFromPriceFeed, get_ticker, is_price_stale, dictLookup,
      PRICE_STALE_THRESHOLD_SEC, decide_eq_true_eq])
    (by norm_num [askBidFromOrderbook, get_orderbook, is_orderbook_stale, dictLookup,
      OrderBook.best_ask, OrderBook.best_bid, ORDERBOOK_STALE_THRESHOLD_SEC,
      decide_eq_false_iff_not])

/-- C7: with WebSocket mode disabled by configuration, `start()` returns
false immediately with the manager state untouched (no transport or feed is
created), and every subsequent `get_current_price` performs exactly one
synchronous fallback call per invocation, returning the fallback value and
leaving the manager state unchanged (no caching inside the manager), so two
consecutive calls perform two fallback calls. -/
theorem manager_disabled_pure_fallback (connectPath : ManagerState → Bool × ManagerState)
    (st : ManagerState) (now now' : ℚ) (symbol : String) (apiPrice apiPrice' : ℚ)
    (hws : st.use_websocket = false) (hinit : st.is_initialized = false)
    (hfb : st.fallback_to_api = true) :
    managerStart connectPath st = (false, st)
    ∧ get_current_price st now symbol apiPrice = ⟨some apiPrice, 1, st⟩
    ∧ get_current_price (get_current_price st now symbol apiPrice).finalState
        now' symbol apiPrice' = ⟨some apiPrice', 1, st⟩
    ∧ (get_current_price st now symbol apiPrice).fallbackCalls +
        (get_current_price (get_current_price st now symbol apiPrice).finalState
          now' symbol apiPrice').fallbackCalls = 2 := by
  have h1 : managerStart connectPath st = (false, st) := by
    unfold managerStart
    rw [if_neg (by rw [hinit]; exact Bool.false_ne_true), if_pos hws]
  have h2 : get_current_price st now symbol apiPrice = ⟨some apiPrice, 1, st⟩ := by
    unfold get_current_price
    rw [hinit]
    simp [hfb]
  have h3 : get_current_price st now' symbol apiPrice' = ⟨some apiPrice', 1, st⟩ := by
    unfold get_current_price
    rw [hinit]
    simp [hfb]
  refine ⟨h1, h2, ?_, ?_⟩
  · rw [h2]
    exact h3
  · rw [h2]
    rw [show (ReadOutcome.mk (some apiPrice) 1 st).finalState = st from rfl, h3]
    rfl

/-- C7 witness: a concrete disabled manager. -/
theorem manager_disabled_pure_fallback_witness :
    managerStart (fun s => (true, s)) ⟨false, true, false, none, none, none⟩ =
      (false, ⟨false, true, false, none, none, none⟩)
    ∧ get_current_price ⟨false, true, false, none, none, none⟩ 0 "BTC" 42 =
      ⟨some 42, 1, ⟨false, true, false, none, none, none⟩⟩ :=
  ⟨(manager_disabled_pure_fallback (fun s => (true, s))
      ⟨false, true, false, none, none, none⟩ 0 1 "BTC" 42 43 rfl rfl rfl).1,
   (manager_disabled_pure_fallback (fun s => (true, s))
      ⟨false, true, false, none, none, none⟩ 0 1 "BTC" 42 43 rfl rfl rfl).2.1⟩

/-- C9: when `get_position` serves from a fresh WebSocket `Position`, it
returns exactly the 7-tuple
`([position_dict], True, size, instrument, entry_price, pnl_percent, is_long)`;
when the feed is live and the instrument has no stored position, it returns
`([], False, 0, symbol, 0, 0, True)` — the same tuple shape as the fallback
path. -/
theorem get_position_tuple_shape (st : ManagerState) (now : ℚ) (symbol : String)
    (uf : UserStateFeedState)
    (hinit : st.is_initialized = true) (huf : st.user_state_feed = some uf) :
    (∀ p : Position, feed_get_position uf symbol = some p →
      is_position_stale uf symbol now 30 = false →
      manager_get_position st now symbol =
        GetPositionResult.tuple [p.to_dict] true p.size p.coin p.entry_price
          p.pnl_percent p.is_long)
    ∧ (feed_get_position uf symbol = none →
      manager_get_position st now symbol =
        GetPositionResult.tuple [] false 0 symbol 0 0 true) := by
  constructor
  · intro p hp hstale
    unfold manager_get_position
    rw [hinit, huf]
    simp only [hp, hstale, if_pos rfl]
    simp
  · intro hp
    have hhas : has_position uf symbol = false := by
      unfold has_position
      unfold feed_get_position at hp
      rw [hp]
    unfold manager_get_position
    rw [hinit, huf]
    simp only [hp, hhas, if_pos rfl]
    simp

/-- C9 witness: a concrete fresh long position and a concrete empty feed. -/
theorem get_position_tuple_shape_witness :
    manager_get_position
      ⟨true, true, true, none, none,
        some ⟨[("BTC", ⟨"BTC", 2, 50000, 10, 1/10, 3, none, 100, 1000⟩)], []⟩⟩
      1000 "BTC" =
      GetPositionResult.tuple
        [Position.to_dict ⟨"BTC", 2, 50000, 10, 1/10, 3, none, 100, 1000⟩] true 2 "BTC" 50000
        (Position.pnl_percent ⟨"BTC", 2, 50000, 10, 1/10, 3, none, 100, 1000⟩)
        (Position.is_long ⟨"BTC", 2, 50000, 10, 1/10, 3, none, 100, 1000⟩)
    ∧ manager_get_position ⟨true, true, true, none, none, some ⟨[], []⟩⟩ 1000 "ETH" =
      GetPositionResult.tuple [] false 0 "ETH" 0 0 true :=
  ⟨(get_position_tuple_shape
      ⟨true, true, true, none, none,
        some ⟨[("BTC", ⟨"BTC", 2, 50000, 10, 1/10, 3, none, 100, 1000⟩)], []⟩⟩
      1000 "BTC" ⟨[("BTC", ⟨"BTC", 2, 50000, 10, 1/10, 3, none, 100, 1000⟩)], []⟩
      rfl rfl).1 ⟨"BTC", 2, 50000, 10, 1/10, 3, none, 100, 1000⟩
      (by norm_num [feed_get_position, dictLookup])
      (by norm_num [is_position_stale, dictLookup, decide_eq_false_iff_not]),
   (get_position_tuple_shape ⟨true, true, true, none, none, some ⟨[], []⟩⟩
      1000 "ETH" ⟨[], []⟩ rfl rfl).2 rfl⟩

theorem updatePositionsCore_untouched (now : ℚ) (coin : String) :
    ∀ (rest : List RawPosEntry) (pos : List (String × Position)) (upd : List String),
      (∀ e ∈ rest, e.coin ≠ coin) →
      dictLookup coin (updatePositionsCore now pos upd rest).1 = dictLookup coin pos
  | [], pos, upd, _ => rfl
  | e :: rest, pos, upd, h => by
    have he : e.coin ≠ coin := h e (List.mem_cons_self e rest)
    have hrest : ∀ e' ∈ rest, e'.coin ≠ coin := fun e' hm => h e' (List.mem_cons_of_mem e hm)
    unfold updatePositionsCore
    split
    · rw [updatePositionsCore_untouched now coin rest _ _ hrest, dictLookup_insert_ne he]
    · split
      · rw [updatePositionsCore_untouched now coin rest _ _ hrest, dictLookup_erase_ne he]
      · exact updatePositionsCore_untouched now coin rest _ _ hrest

theorem updatePositionsCore_upd_mono (now : ℚ) :
    ∀ (rest : List RawPosEntry) (pos : List (String × Position)) (upd : List String)
      (c : String), c ∈ upd → c ∈ (updatePositionsCore now pos upd rest).2
  | [], _, _, _, h => h
  | e :: rest, pos, upd, c, h => by
    unfold updatePositionsCore
    split
    · exact updatePositionsCore_upd_mono now rest _ _ c (List.mem_append_left _ h)
    · split
      · exact updatePositionsCore_upd_mono now rest _ _ c (List.mem_append_left _ h)
      · exact updatePositionsCore_upd_mono now rest _ _ c h

theorem updatePositionsCore_append (now : ℚ) :
    ∀ (l₁ l₂ : List RawPosEntry) (pos : List (String × Position)) (upd : List String),
      updatePositionsCore now pos upd (l₁ ++ l₂) =
        updatePositionsCore now (updatePositionsCore now pos upd l₁).1
          (updatePositionsCore now pos upd l₁).2 l₂
  | [], l₂, pos, upd => rfl
  | e :: l₁, l₂, pos, upd => by
    simp only [List.cons_append]
    by_cases h1 : e.szi ≠ 0
    · simp only [updatePositionsCore, if_pos h1]
      exact updatePositionsCore_append now l₁ l₂ _ _
    · by_cases h2 : (dictLookup e.coin pos).isSome
      · simp only [updatePositionsCore, if_neg h1, if_pos h2]
        exact updatePositionsCore_append now l₁ l₂ _ _
      · simp only [updatePositionsCore, if_neg h1, if_neg h2]
        exact updatePositionsCore_append now l₁ l₂ _ _

theorem emitAll_mem (listeners : List ℕ) (positions : List (String × Position)) :
    ∀ (cs : List String) (c : String) (l : ℕ), c ∈ cs → l ∈ listeners →
      (l, emitEventFor positions c) ∈ emitAll listeners positions cs
  | [], c, _, hc, _ => absurd hc (List.not_mem_nil c)
  | c' :: cs, c, l, hc, hl => by
    unfold emitAll
    rcases List.mem_cons.mp hc with h | h
    · subst h
      exact List.mem_append_left _ (List.mem_map.mpr ⟨l, hl, rfl⟩)
    · exact List.mem_append_right _ (emitAll_mem listeners positions cs c l h hl)

/-- C3: for a user-event position list whose single entry for a currently
stored instrument reports size 0, processing removes that instrument from
`get_all_positions()` and delivers the `{coin, size: 0, closed: true}`
marker to every registered position listener; an entry with nonzero size
instead creates or wholly replaces that instrument's `Position`. No soft-close
flag is kept: the closed position is simply absent from the live set. -/
theorem position_delete_on_zero (now : ℚ) (st : UserStateFeedState)
    (l₁ l₂ : List RawPosEntry) (e : RawPosEntry) (coin : String)
    (hcoin : e.coin = coin)
    (honly : ∀ e' ∈ l₁ ++ l₂, e'.coin ≠ coin) :
    (∀ p : Position, e.szi = 0 → dictLookup coin st.positions = some p →
      dictLookup coin (get_all_positions (updatePositions now st (l₁ ++ e :: l₂)).1) = none
      ∧ ∀ l ∈ st.listeners,
          (l, PositionEvent.closedMarker coin 0 true) ∈
            (updatePositions now st (l₁ ++ e :: l₂)).2)
    ∧ (e.szi ≠ 0 →
      dictLookup coin (get_all_positions (updatePositions now st (l₁ ++ e :: l₂)).1) =
        some (posFromRaw now e)) := by
  subst hcoin
  have h1 : ∀ e' ∈ l₁, e'.coin ≠ e.coin := fun e' h => honly e' (List.mem_append_left _ h)
  have h2 : ∀ e' ∈ l₂, e'.coin ≠ e.coin := fun e' h => honly e' (List.mem_append_right _ h)
  have hsplit := updatePositionsCore_append now l₁ (e :: l₂) st.positions []
  constructor
  · intro p hz hp
    have hl1 : dictLookup e.coin (updatePositionsCore now st.positions [] l₁).1 = some p := by
      rw [updatePositionsCore_untouched now e.coin l₁ _ _ h1]
      exact hp
    have hstep :
        updatePositionsCore now (updatePositionsCore now st.positions [] l₁).1
          (updatePositionsCore now st.positions [] l₁).2 (e :: l₂) =
        updatePositionsCore now
          (dictErase e.coin (updatePositionsCore now st.positions [] l₁).1)
          ((updatePositionsCore now st.positions [] l₁).2 ++ [e.coin]) l₂ := by
      have hnz : ¬ e.szi ≠ 0 := by simp [hz]
      simp only [updatePositionsCore, if_neg hnz, hl1, Option.isSome_some, if_pos]
    have hfinal :
        dictLookup e.coin (updatePositionsCore now st.positions [] (l₁ ++ e :: l₂)).1 = none := by
      rw [hsplit, hstep, updatePositionsCore_untouched now e.coin l₂ _ _ h2,
        dictLookup_erase_self]
    have hmem : e.coin ∈ (updatePositionsCore now st.positions [] (l₁ ++ e :: l₂)).2 := by
      rw [hsplit, hstep]
      exact updatePositionsCore_upd_mono now l₂ _ _ e.coin
        (List.mem_append_right _ (List.mem_singleton.mpr rfl))
    refine ⟨by simpa [updatePositions, get_all_positions] using hfinal, ?_⟩
    intro l hl
    have hdeliver := emitAll_mem st.listeners
      (updatePositionsCore now st.positions [] (l₁ ++ e :: l₂)).1
      (updatePositionsCore now st.positions [] (l₁ ++ e :: l₂)).2 e.coin l hmem hl
    have hev : emitEventFor (updatePositionsCore now st.positions [] (l₁ ++ e :: l₂)).1 e.coin =
        PositionEvent.closedMarker e.coin 0 true := by
      unfold emitEventFor
      rw [hfinal]
    rw [hev] at hdeliver
    simpa [updatePositions] using hdeliver
  · intro hnz
    have hstep :
        updatePositionsCore now (updatePositionsCore now st.positions [] l₁).1
          (updatePositionsCore now st.positions [] l₁).2 (e :: l₂) =
        updatePositionsCore now
          (dictInsert e.coin (posFromRaw now e) (updatePositionsCore now st.positions [] l₁).1)
          ((updatePositionsCore now st.positions [] l₁).2 ++ [e.coin]) l₂ := by
      simp only [updatePositionsCore, if_pos hnz]
    have hfinal :
        dictLookup e.coin (updatePositionsCore now st.positions [] (l₁ ++ e :: l₂)).1 =
          some (posFromRaw now e) := by
      rw [hsplit, hstep, updatePositionsCore_untouched now e.coin l₂ _ _ h2,
        dictLookup_insert_self]
    simpa [updatePositions, get_all_positions] using hfinal

/-- C3 witness: a single zero-size event entry for a stored position deletes
it and delivers the closed marker to the registered listener; a nonzero entry
replaces the position. -/
theorem position_delete_on_zero_witness :
    (dictLookup "BTC"
        (get_all_positions
          (updatePositions 2000
            ⟨[("BTC", ⟨"BTC", 2, 50000, 10, 1/10, 3, none, 100, 1000⟩)], [0]⟩
            ([] ++ (⟨"BTC", 0, 0, 0, 0, 1, none, 0⟩ : RawPosEntry) :: [])).1) = none
      ∧ ∀ l ∈ ([0] : List ℕ),
          (l, PositionEvent.closedMarker "BTC" 0 true) ∈
            (updatePositions 2000
              ⟨[("BTC", ⟨"BTC", 2, 50000, 10, 1/10, 3, none, 100, 1000⟩)], [0]⟩
              ([] ++ (⟨"BTC", 0, 0, 0, 0, 1, none, 0⟩ : RawPosEntry) :: [])).2)
    ∧ dictLookup "BTC"
        (get_all_positions
          (updatePositions 2000
            ⟨[("BTC", ⟨"BTC", 2, 50000, 10, 1/10, 3, none, 100, 1000⟩)], [0]⟩
            ([] ++ (⟨"BTC", 5, 49000, 0, 0, 1, none, 0⟩ : RawPosEntry) :: [])).1) =
        some (posFromRaw 2000 ⟨"BTC", 5, 49000, 0, 0, 1, none, 0⟩) :=
  ⟨(position_delete_on_zero 2000
      ⟨[("BTC", ⟨"BTC", 2, 50000, 10, 1/10, 3, none, 100, 1000⟩)], [0]⟩
      [] [] ⟨"BTC", 0, 0, 0, 0, 1, none, 0⟩ "BTC" rfl (by simp)).1
      ⟨"BTC", 2, 50000, 10, 1/10, 3, none, 100, 1000⟩ rfl (by simp [dictLookup]),
   (position_delete_on_zero 2000
      ⟨[("BTC", ⟨"BTC", 2, 50000, 10, 1/10, 3, none, 100, 1000⟩)], [0]⟩
      [] [] ⟨"BTC", 5, 49000, 0, 0, 1, none, 0⟩ "BTC" rfl (by simp)).2 (by norm_num)⟩

theorem take_append_take {α : Type} (A B : List α) (m : ℕ) :
    (A ++ B.take m).take m = (A ++ B).take m := by
  rw [List.take_append_eq_append_take, List.take_append_eq_append_take, List.take_take,
    Nat.min_eq_left (Nat.sub_le m A.length)]

theorem processFill_take (maxFills : ℕ) (buf : List Fill) (f : Fill) :
    processFill maxFills buf f = (f :: buf).take maxFills := by
  simp only [processFill]
  split
  · rfl
  · next h =>
    push_neg at h
    exact (List.take_of_length_le h).symm

theorem processFills_take (maxFills : ℕ) :
    ∀ (fs : List Fill) (buf : List Fill), buf.length ≤ maxFills →
      processFills maxFills buf fs = (fs.reverse ++ buf).take maxFills
  | [], buf, h => by
    simp [processFills, List.take_of_length_le h]
  | f :: fs, buf, h => by
    unfold processFills
    rw [processFill_take]
    rw [processFills_take maxFills fs ((f :: buf).take maxFills)
      (List.length_take_le _ _)]
    rw [List.reverse_cons, List.append_assoc]
    exact take_append_take _ _ _

/-- C5: each fill is prepended (newest first) and the buffer trimmed to at
most 100 entries with the oldest silently dropped; after inserting 105 fills
into an empty buffer the stored buffer is exactly the newest 100 in
newest-first order (the oldest 5 gone), and `get_recent_fills(200)` returns
exactly those 100 as dictionaries. -/
theorem fill_ring_buffer (fs : List Fill) (hlen : fs.length = 105) :
    (∀ (buf : List Fill) (f : Fill), processFill 100 buf f = (f :: buf).take 100)
    ∧ processFills 100 [] fs = (fs.drop 5).reverse
    ∧ (processFills 100 [] fs).length = 100
    ∧ get_recent_fills (processFills 100 [] fs) 200 = ((fs.drop 5).reverse).map Fill.to_dict := by
  have hmain : processFills 100 [] fs = fs.reverse.take 100 := by
    simpa using processFills_take 100 fs [] (by norm_num)
  have hrev : fs.reverse.take 100 = (fs.drop 5).reverse := by
    rw [← List.reverse_reverse (fs.reverse.take 100), List.reverse_take,
      List.reverse_reverse, List.length_reverse, hlen]
  have hbuf : processFills 100 [] fs = (fs.drop 5).reverse := by rw [hmain, hrev]
  have hblen : (processFills 100 [] fs).length = 100 := by
    rw [hbuf]
    simp [hlen]
  refine ⟨processFill_take 100, hbuf, hblen, ?_⟩
  unfold get_recent_fills
  rw [List.take_of_length_le (by rw [hblen]; norm_num), hbuf]

/-- C5 witness: 105 concrete fills leave exactly the newest 100. -/
theorem fill_ring_buffer_witness :
    (∀ (buf : List Fill) (f : Fill), processFill 100 buf f = (f :: buf).take 100)
    ∧ processFills 100 []
        ((List.range 105).map (fun (i : ℕ) => (⟨"BTC", "B", 1, (i : ℚ), 0, 0, "", 0⟩ : Fill))) =
      (((List.range 105).map
          (fun (i : ℕ) => (⟨"BTC", "B", 1, (i : ℚ), 0, 0, "", 0⟩ : Fill))).drop 5).reverse
    ∧ (processFills 100 []
        ((List.range 105).map (fun (i : ℕ) => (⟨"BTC", "B", 1, (i : ℚ), 0, 0, "", 0⟩ : Fill)))).length =
      100
    ∧ get_recent_fills
        (processFills 100 []
          ((List.range 105).map (fun (i : ℕ) => (⟨"BTC", "B", 1, (i : ℚ), 0, 0, "", 0⟩ : Fill)))) 200 =
      ((((List.range 105).map
          (fun (i : ℕ) => (⟨"BTC", "B", 1, (i : ℚ), 0, 0, "", 0⟩ : Fill))).drop 5).reverse).map
        Fill.to_dict :=
  fill_ring_buffer
    ((List.range 105).map (fun (i : ℕ) => (⟨"BTC", "B", 1, (i : ℚ), 0, 0, "", 0⟩ : Fill)))
    (by rw [List.length_map, List.length_range])

end AIAgents
